import Mathlib

/-!
Verification of the Moe query engine (`moe/core/query.py`, with the custom
sqlite `regexp` function from `moe/config.py`).

Strings are modelled as `List Char`.  Pure functions of the source are
translated directly; the sqlalchemy store, the `shlex` tokenizer and the
Python `re` module are external collaborators and are modelled explicitly
(the regular-expression collaborator on a documented subset of its syntax).
Record classes (`Track`, `Album`) and `Track.get_attr` are not part of the
provided sources; they are modelled from the spec where noted.
-/

/-! ## Character helpers (ASCII case folding, whitespace classes) -/

/-- ASCII lower-casing, as `str.lower` acts on ASCII characters. -/
def lowChar (c : Char) : Char :=
  if 65 ≤ c.toNat ∧ c.toNat ≤ 90 then Char.ofNat (c.toNat + 32) else c

/-- ASCII upper-casing, as `str.upper` acts on ASCII characters. -/
def upChar (c : Char) : Char :=
  if 97 ≤ c.toNat ∧ c.toNat ≤ 122 then Char.ofNat (c.toNat - 32) else c

/-- Whitespace for the Python regular-expression class `\s` (ASCII range):
space, tab, newline, carriage return, vertical tab, form feed. -/
def isPyWs (c : Char) : Bool :=
  c.toNat == 32 || c.toNat == 9 || c.toNat == 10 || c.toNat == 13 ||
    c.toNat == 11 || c.toNat == 12

/-- Whitespace characters of the default `shlex` lexer: space, tab,
carriage return, newline. -/
def isShlexWs (c : Char) : Bool :=
  c.toNat == 32 || c.toNat == 9 || c.toNat == 13 || c.toNat == 10

theorem toNat_ofNat_valid (n : Nat) (h : n < 55296) : (Char.ofNat n).toNat = n := by
  have hv : n.isValidChar := Or.inl h
  rw [Char.ofNat, dif_pos hv]
  simp [Char.ofNatAux, Char.toNat, UInt32.toNat, BitVec.toNat_ofNatLt]

theorem char_eq_of_toNat_eq {c d : Char} (h : c.toNat = d.toNat) : c = d := by
  have hc := Char.ofNat_toNat c
  rw [h, Char.ofNat_toNat d] at hc
  exact hc.symm

theorem lowChar_toNat (c : Char) :
    (lowChar c).toNat = if 65 ≤ c.toNat ∧ c.toNat ≤ 90 then c.toNat + 32 else c.toNat := by
  unfold lowChar
  split
  · next h => exact toNat_ofNat_valid _ (by omega)
  · rfl

theorem upChar_toNat (c : Char) :
    (upChar c).toNat = if 97 ≤ c.toNat ∧ c.toNat ≤ 122 then c.toNat - 32 else c.toNat := by
  unfold upChar
  split
  · next h => exact toNat_ofNat_valid _ (by omega)
  · rfl

theorem lowChar_upChar (c : Char) : lowChar (upChar c) = lowChar c := by
  apply char_eq_of_toNat_eq
  rw [lowChar_toNat, lowChar_toNat, upChar_toNat]
  by_cases h : 97 ≤ c.toNat ∧ c.toNat ≤ 122
  · rw [if_pos h]
    rw [if_pos (by omega), if_neg (by omega)]
    omega
  · rw [if_neg h]

theorem lowChar_lowChar (c : Char) : lowChar (lowChar c) = lowChar c := by
  apply char_eq_of_toNat_eq
  simp only [lowChar_toNat]
  split_ifs <;> omega

theorem isPyWs_upChar (c : Char) : isPyWs (upChar c) = isPyWs c := by
  unfold isPyWs
  rw [upChar_toNat]
  by_cases h : 97 ≤ c.toNat ∧ c.toNat ≤ 122
  · rw [if_pos h]
    have h1 : ¬ (c.toNat - 32 == 32 || c.toNat - 32 == 9 || c.toNat - 32 == 10 ||
        c.toNat - 32 == 13 || c.toNat - 32 == 11 || c.toNat - 32 == 12) = true := by
      simp only [Bool.or_eq_true, beq_iff_eq]
      omega
    have h2 : ¬ (c.toNat == 32 || c.toNat == 9 || c.toNat == 10 ||
        c.toNat == 13 || c.toNat == 11 || c.toNat == 12) = true := by
      simp only [Bool.or_eq_true, beq_iff_eq]
      omega
    rw [Bool.eq_false_iff.mpr h1, Bool.eq_false_iff.mpr h2]
  · rw [if_neg h]

theorem upChar_ne_newline (c : Char) : ((upChar c).toNat == 10) = (c.toNat == 10) := by
  rw [upChar_toNat]
  by_cases h : 97 ≤ c.toNat ∧ c.toNat ≤ 122
  · rw [if_pos h]
    have h1 : ¬ (c.toNat - 32 == 10) = true := by simp only [beq_iff_eq]; omega
    have h2 : ¬ (c.toNat == 10) = true := by simp only [beq_iff_eq]; omega
    rw [Bool.eq_false_iff.mpr h1, Bool.eq_false_iff.mpr h2]
  · rw [if_neg h]

/-! ## Tokenizer: model of `shlex.split` (POSIX mode, whitespace split)

`query` calls `shlex.split(query_str)` (query.py line 92).  The model is a
state machine over the input characters: outside quotes whitespace separates
tokens, single quotes group characters literally, double quotes group
characters with backslash escaping of the double quote and the backslash,
and backslash outside quotes escapes the next character.  An unterminated
quote or a trailing escape raises `ValueError` in Python, modelled as
`none`. -/

inductive SMode where
  | normal
  | single
  | double
  | escNormal
  | escDouble
deriving DecidableEq, Repr

def shlexGo : SMode → List Char → List Char → Bool → List (List Char) →
    Option (List (List Char))
  | .normal, [], tok, quoted, acc =>
    some (if tok.isEmpty && !quoted then acc else acc ++ [tok])
  | .normal, c :: rest, tok, quoted, acc =>
    if isShlexWs c then
      if tok.isEmpty && !quoted then shlexGo .normal rest [] false acc
      else shlexGo .normal rest [] false (acc ++ [tok])
    else if c == '\'' then shlexGo .single rest tok true acc
    else if c == '"' then shlexGo .double rest tok true acc
    else if c == '\\' then shlexGo .escNormal rest tok quoted acc
    else shlexGo .normal rest (tok ++ [c]) quoted acc
  | .single, [], _, _, _ => none
  | .single, c :: rest, tok, quoted, acc =>
    if c == '\'' then shlexGo .normal rest tok quoted acc
    else shlexGo .single rest (tok ++ [c]) quoted acc
  | .double, [], _, _, _ => none
  | .double, c :: rest, tok, quoted, acc =>
    if c == '"' then shlexGo .normal rest tok quoted acc
    else if c == '\\' then shlexGo .escDouble rest tok quoted acc
    else shlexGo .double rest (tok ++ [c]) quoted acc
  | .escNormal, [], _, _, _ => none
  | .escNormal, c :: rest, tok, quoted, acc => shlexGo .normal rest (tok ++ [c]) quoted acc
  | .escDouble, [], _, _, _ => none
  | .escDouble, c :: rest, tok, quoted, acc =>
    shlexGo .double rest (tok ++ (if c == '"' || c == '\\' then [c] else ['\\', c])) quoted acc

/-- Model of `shlex.split`; `none` models an uncaught `ValueError`. -/
def shlexSplit (s : List Char) : Option (List (List Char)) :=
  shlexGo .normal s [] false []

/-! ## Term parser: `_parse_term` (query.py lines 118-163)

The term grammar is the Python regular expression
`(?P<field>\S+?)(?P<separator>::?)(?P<value>\S.*)` applied with `re.match`.
`termMatch` reproduces the leftmost match produced by the backtracking
search: the lazy `\S+?` group is grown one character at a time, at each
stop the greedy `::?` tries two colons before one, and the value group
requires one non-whitespace character followed by the rest of the token up
to (and excluding) the first newline, since `.` does not match newline. -/

structure ParsedTerm where
  field : List Char
  separator : List Char
  value : List Char
deriving DecidableEq, Repr

/-- Value group `\S.*`: one non-whitespace character, then everything up to
the first newline. -/
def valueFrom : List Char → Option (List Char)
  | [] => none
  | c :: rest =>
    if isPyWs c then none
    else some (c :: rest.takeWhile (fun d => !(d.toNat == 10)))

/-- Attempt of the separator and value groups at one stop of the lazy field
group: the greedy `::?` first tries two colons (falling back to a single
colon when the value group fails behind them), then one colon. -/
def tryAt (f rest : List Char) : Option ParsedTerm :=
  match rest with
  | [] => none
  | a :: after1 =>
    if a = ':' then
      match after1 with
      | [] => none
      | b :: after2 =>
        if b = ':' then
          match valueFrom after2 with
          | some v => some ⟨f, [':', ':'], v⟩
          | none =>
            match valueFrom (':' :: after2) with
            | some v => some ⟨f, [':'], v⟩
            | none => none
        else
          match valueFrom (b :: after2) with
          | some v => some ⟨f, [':'], v⟩
          | none => none
    else none

def termMatch : List Char → List Char → Option ParsedTerm
  | _, [] => none
  | fieldAcc, c :: rest =>
    if isPyWs c then none
    else
      match tryAt (fieldAcc ++ [c]) rest with
      | some pt => some pt
      | none => termMatch (fieldAcc ++ [c]) rest

/-- Model of `_parse_term`: the wildcard shortcut for `*`, otherwise the
grammar match with the field group lower-cased; `none` models the
`ValueError` for an invalid query term. -/
def parseTerm (term : List Char) : Option ParsedTerm :=
  if term = ['*'] then some ⟨"track_num".toList, [':'], ['%']⟩
  else
    match termMatch [] term with
    | none => none
    | some pt => some ⟨pt.field.map lowChar, pt.separator, pt.value⟩

example : parseTerm "artist:name".toList =
    some ⟨"artist".toList, [':'], "name".toList⟩ := by decide

example : parseTerm "title::^A.*".toList =
    some ⟨"title".toList, [':', ':'], "^A.*".toList⟩ := by decide

example : parseTerm "a::".toList = some ⟨['a'], [':'], [':']⟩ := by decide

example : parseTerm "badtoken".toList = none := by decide

example : parseTerm "::x".toList = some ⟨[':'], [':'], ['x']⟩ := by decide

/-! ## Spec-side reading of the term grammar

The following definitions follow the words of the (amended) specification
sentence for the term grammar: the field is the shortest non-empty run of
non-whitespace characters that is followed by a colon and then a
non-whitespace character; the separator is two colons exactly when two
colons follow the field with a non-whitespace character behind them, and
one colon otherwise; the value is the remainder of the token after the
separator, truncated at the first newline.  They are compared with the
source-side `parseTerm` in the theorem for the term-grammar claim. -/

/-- Wording: a colon follows, and a non-whitespace character follows it. -/
def sepOk : List Char → Bool
  | a :: c :: _ => a == ':' && !isPyWs c
  | _ => false

/-- Shortest non-empty all-non-whitespace prefix after which `sepOk` holds,
together with the remainder. -/
def splitFirst : List Char → Option (List Char × List Char)
  | [] => none
  | c :: rest =>
    if isPyWs c then none
    else if sepOk rest then some ([c], rest)
    else (splitFirst rest).map (fun ep => (c :: ep.1, ep.2))

/-- Wording: the separator is two colons exactly when two colons follow the
field and a non-whitespace character follows them, else one colon. -/
def sepAt (post : List Char) : List Char :=
  match post with
  | a :: b :: c :: _ =>
    if a = ':' ∧ b = ':' ∧ isPyWs c = false then [':', ':'] else [':']
  | _ => [':']

/-- Wording: separator plus the remainder of the token after it, truncated
at the first newline. -/
def buildFrom (post : List Char) : List Char × List Char :=
  let sep := sepAt post
  (sep, (post.drop sep.length).takeWhile (fun d => !(d.toNat == 10)))

/-- Term parser as the specification words describe it. -/
def parseTermSpec (term : List Char) : Option ParsedTerm :=
  if term = ['*'] then some ⟨"track_num".toList, [':'], ['%']⟩
  else
    (splitFirst term).map (fun fp =>
      ⟨fp.1.map lowChar, (buildFrom fp.2).1, (buildFrom fp.2).2⟩)

/-! ## Regular expressions: model of the `re` collaborator

Modelled from the spec: the query engine treats the Python `re` module as
the regular-expression collaborator (compilation in `_create_expression`,
matching in the custom sqlite function `_regexp` of config.py, which does a
case-insensitive `re.search`).  The model covers a subset of the syntax:
literal characters, `.` (any character except newline), the escapes `\s`,
`\S` and escaped non-alphanumeric literals, postfix `*`, `+`, `?` with an
optional lazy modifier, alternation with a vertical bar, and plain
parenthesised groups.  Patterns outside this subset are rejected by the
model parser; inside the subset acceptance and matching agree with Python.
Matching is via Brzozowski derivatives, with optional ASCII case folding
for the IGNORECASE flag. -/

inductive RE where
  | emp
  | eps
  | char (c : Char)
  | any
  | spaceCls (neg : Bool)
  | seq (a b : RE)
  | alt (a b : RE)
  | star (a : RE)
deriving DecidableEq, Repr

def RE.nullable : RE → Bool
  | .emp => false
  | .eps => true
  | .char _ => false
  | .any => false
  | .spaceCls _ => false
  | .seq a b => a.nullable && b.nullable
  | .alt a b => a.nullable || b.nullable
  | .star _ => true

def RE.deriv (ci : Bool) : RE → Char → RE
  | .emp, _ => .emp
  | .eps, _ => .emp
  | .char d, c => if (if ci then lowChar c == lowChar d else c == d) then .eps else .emp
  | .any, c => if c.toNat == 10 then .emp else .eps
  | .spaceCls neg, c => if isPyWs c != neg then .eps else .emp
  | .seq a b, c =>
    if a.nullable then .alt (.seq (a.deriv ci c) b) (b.deriv ci c)
    else .seq (a.deriv ci c) b
  | .alt a b, c => .alt (a.deriv ci c) (b.deriv ci c)
  | .star a, c => .seq (a.deriv ci c) (.star a)

/-- Some prefix of the string is matched by the expression. -/
def matchesPre (ci : Bool) : RE → List Char → Bool
  | r, [] => r.nullable
  | r, c :: rest => r.nullable || matchesPre ci (r.deriv ci c) rest

/-- Model of `re.search`: some substring, starting at any position, is
matched by the expression. -/
def reSearch (ci : Bool) (r : RE) : List Char → Bool
  | [] => r.nullable
  | c :: rest => matchesPre ci r (c :: rest) || reSearch ci r rest

/-- Postfix repetition operators after an atom, with the lazy modifier and
the rejection of an immediately repeated repeat. -/
def parseRep (a : RE) : List Char → Option (RE × List Char)
  | [] => some (a, [])
  | c :: rest =>
    if c == '*' || c == '+' || c == '?' then
      let a' := if c == '*' then RE.star a
        else if c == '+' then RE.seq a (RE.star a)
        else RE.alt a .eps
      match rest with
      | [] => some (a', [])
      | d :: rest2 =>
        if d == '?' then some (a', rest2)
        else if d == '*' || d == '+' then none
        else some (a', d :: rest2)
    else some (a, c :: rest)

mutual

def parseAlt : Nat → List Char → Option (RE × List Char)
  | 0, _ => none
  | fuel + 1, l =>
    match parseSeq fuel l with
    | none => none
    | some (a, l1) =>
      match l1 with
      | '|' :: rest =>
        match parseAlt fuel rest with
        | none => none
        | some (b, l2) => some (.alt a b, l2)
      | _ => some (a, l1)

def parseSeq : Nat → List Char → Option (RE × List Char)
  | 0, _ => none
  | _ + 1, [] => some (.eps, [])
  | fuel + 1, c :: rest =>
    if c == ')' || c == '|' then some (.eps, c :: rest)
    else
      match parseAtom fuel (c :: rest) with
      | none => none
      | some (a, l1) =>
        match parseRep a l1 with
        | none => none
        | some (a', l2) =>
          match parseSeq fuel l2 with
          | none => none
          | some (b, l3) => some (.seq a' b, l3)

def parseAtom : Nat → List Char → Option (RE × List Char)
  | 0, _ => none
  | _ + 1, [] => none
  | fuel + 1, '(' :: rest =>
    match parseAlt fuel rest with
    | none => none
    | some (a, l1) =>
      match l1 with
      | ')' :: l2 => some (a, l2)
      | _ => none
  | _ + 1, '.' :: rest => some (.any, rest)
  | _ + 1, '\\' :: rest =>
    match rest with
    | [] => none
    | c :: rest2 =>
      if c == 's' then some (.spaceCls false, rest2)
      else if c == 'S' then some (.spaceCls true, rest2)
      else if c.isAlphanum then none
      else some (.char c, rest2)
  | _ + 1, c :: rest =>
    if c == '*' || c == '+' || c == '?' || c == ')' || c == '|' || c == '[' ||
        c == '{' || c == '^' || c == '$' then none
    else some (.char c, rest)

end

/-- Model of `re.compile` on the supported subset: the whole pattern must
be consumed; `none` models `re.error`. -/
def reCompile (pat : List Char) : Option RE :=
  match parseAlt (3 * pat.length + 9) pat with
  | some (r, []) => some r
  | _ => none

/-- Model of the custom sqlite function `_regexp` (config.py lines
284-295), composed with compilation: case-insensitive search of the
pattern in the string. -/
def regexpFn (pat s : List Char) : Option Bool :=
  (reCompile pat).map (fun r => reSearch true r s)

/-! ## SQL LIKE matching with escape character

`_create_expression` builds `attr.ilike(literal(value), escape="/")`
(query.py line 189): a case-insensitive SQL LIKE match where the percent
sign matches any run of characters, the underscore matches exactly one
character, and a slash escapes the following character to its literal
meaning. -/

def likeFuel : Nat → List Char → List Char → Bool
  | 0, _, _ => false
  | _ + 1, [], s => s.isEmpty
  | fuel + 1, '%' :: p, [] => likeFuel fuel p []
  | fuel + 1, '%' :: p, d :: s => likeFuel fuel p (d :: s) || likeFuel fuel ('%' :: p) s
  | _ + 1, '_' :: _, [] => false
  | fuel + 1, '_' :: p, _ :: s => likeFuel fuel p s
  | _ + 1, '/' :: _ :: _, [] => false
  | fuel + 1, '/' :: e :: p, d :: s => e == d && likeFuel fuel p s
  | _ + 1, ['/'], _ => false
  | _ + 1, _ :: _, [] => false
  | fuel + 1, c :: p, d :: s => c == d && likeFuel fuel p s

/-- LIKE matching; every recursion step of `likeFuel` shortens the pattern
or the candidate, so this fuel always suffices. -/
def likeRaw (p s : List Char) : Bool := likeFuel (p.length + s.length + 1) p s

/-- Case-insensitive LIKE, as `ilike` compiles to lower-casing both the
column value and the pattern. -/
def ilikeMatch (pattern s : List Char) : Bool :=
  likeRaw (pattern.map lowChar) (s.map lowChar)

example : ilikeMatch "wu-tang clan".toList "Wu-Tang Clan".toList = true := by decide

example : ilikeMatch "wu-tang".toList "Wu-Tang Clan".toList = false := by decide

example : ilikeMatch "100/%".toList "100%".toList = true := by decide

example : ilikeMatch "100/%".toList "100x".toList = false := by decide

example : regexpFn "\\S".toList "x".toList = some true := by decide

example : regexpFn "\\s".toList "X".toList = some false := by decide

example : reCompile "(".toList = none := by decide

/-! ## Records and field access

The record classes live in `moe/core/library/` which is not among the
provided sources; the field registry is modelled from the spec.  Numeric
fields are compared through their decimal string representation, as the
sqlite functions receive the stringified column value. -/

structure TrackRec where
  artist : List Char
  albumartist : List Char
  album : List Char
  title : List Char
  track_num : Nat
  year : Nat
  path : List Char
deriving DecidableEq, Repr

structure AlbumRec where
  tracks : List TrackRec
deriving DecidableEq, Repr

structure Store where
  albums : List AlbumRec
deriving DecidableEq, Repr

def natToChars (n : Nat) : List Char := (toString n).toList

/-- Modelled from the spec: the Track field registry (the set of
lower-cased field names a Track exposes; `moe/core/library/track.py` is
absent from the sources). -/
def trackFields : List (List Char) :=
  ["artist", "albumartist", "album", "title", "track_num", "year", "path"].map
    String.toList

/-- Modelled from the spec: the Album field registry; an Album has no
`track_num` (`moe/core/library/album.py` is absent from the sources). -/
def albumFields : List (List Char) :=
  ["artist", "title", "year", "path"].map String.toList

/-- Modelled from the spec: `Track.get_attr` resolves a field name
case-insensitively against the Track field registry and raises
`ValueError` for an unknown field. -/
def trackGetAttr (field : List Char) : Option (List Char) :=
  if (field.map lowChar) ∈ trackFields then some (field.map lowChar) else none

/-- Stringified value of a Track column. -/
def TrackRec.getField (t : TrackRec) (f : List Char) : List Char :=
  if f = "artist".toList then t.artist
  else if f = "albumartist".toList then t.albumartist
  else if f = "album".toList then t.album
  else if f = "title".toList then t.title
  else if f = "track_num".toList then natToChars t.track_num
  else if f = "year".toList then natToChars t.year
  else if f = "path".toList then t.path
  else []

/-! ## Predicate compiler: `_create_expression` (query.py lines 166-201) -/

inductive Predicate where
  | like (field : List Char) (pattern : List Char)
  | regex (field : List Char) (pattern : List Char)
deriving DecidableEq, Repr

inductive QueryError where
  | malformedTerm (token : List Char)
  | unknownField (field : List Char)
  | invalidRegex (value : List Char)
  | invalidSeparator (separator : List Char)
deriving DecidableEq, Repr

deriving instance DecidableEq for Except

/-- Model of `_create_expression`: lower-cases the field again, resolves it
through `Track.get_attr` (for both record kinds), then builds an `ilike`
filter for a single colon, or eagerly validates the value as a regular
expression and builds a `regexp` filter for a double colon; any other
separator raises. -/
def createExpression (t : ParsedTerm) : Except QueryError Predicate :=
  let field := t.field.map lowChar
  match trackGetAttr field with
  | none => .error (.unknownField field)
  | some attr =>
    if t.separator = [':'] then .ok (.like attr t.value)
    else if t.separator = [':', ':'] then
      match reCompile t.value with
      | none => .error (.invalidRegex t.value)
      | some _ => .ok (.regex attr t.value)
    else .error (.invalidSeparator t.separator)

/-- Evaluation of a compiled filter on one track row: `ilike` with escape
slash, or the custom sqlite `regexp` function (a case-insensitive
`re.search` on the stringified column). -/
def predMatches (p : Predicate) (t : TrackRec) : Bool :=
  match p with
  | .like f pat => ilikeMatch pat (t.getField f)
  | .regex f pat => (regexpFn pat (t.getField f)).getD false

/-! ## Query engine: `query` (query.py lines 79-115) -/

/-- Parse one token and compile it to a filter; the two `ValueError`
sources inside the `for` loop of `query`. -/
def compileOne (tok : List Char) : Except QueryError Predicate :=
  match parseTerm tok with
  | none => .error (.malformedTerm tok)
  | some pt => createExpression pt

/-- Left-to-right compilation of the token list, stopping at the first
error, as the `try`/`except` around the loop body does. -/
def compileTerms : List (List Char) → Except QueryError (List Predicate)
  | [] => .ok []
  | t :: ts =>
    match compileOne t with
    | .error e => .error e
    | .ok p =>
      match compileTerms ts with
      | .error e => .error e
      | .ok ps => .ok (p :: ps)

inductive LogMsg where
  | errNoQuery
  | errTerm (e : QueryError)
  | warnNoItems
deriving DecidableEq, Repr

inductive LibItemM where
  | track (t : TrackRec)
  | album (a : AlbumRec)
deriving DecidableEq, Repr

/-- Outcome of one `query` call: the returned list, the emitted log
messages, and whether the accumulated statement was executed against the
database (`library_query.all()`, line 110). -/
structure QueryResult where
  items : List LibItemM
  logs : List LogMsg
  storeEvaluated : Bool
deriving DecidableEq, Repr

def Store.allTracks (st : Store) : List TrackRec :=
  (st.albums.map AlbumRec.tracks).flatten

/-- Track query: `session.query(Track).join(Album)` filtered by every
predicate; every track row joins its album. -/
def Store.findTracks (st : Store) (preds : List Predicate) : List TrackRec :=
  st.allTracks.filter (fun t => preds.all (fun p => predMatches p t))

/-- Album query: `session.query(Album).join(Track)` filtered by every
predicate; an album row survives the inner join and the filters exactly
when one of its tracks satisfies all predicates, and the ORM deduplicates
the returned entities. -/
def Store.findAlbums (st : Store) (preds : List Predicate) : List AlbumRec :=
  st.albums.filter (fun a => a.tracks.any (fun t => preds.all (fun p => predMatches p t)))

/-- Processing of the token list by `query`: on zero tokens log an error
and return the empty list; otherwise compile each term in order, logging
the first `ValueError` and returning the empty list on failure; otherwise
execute the statement, log a warning when nothing matched, and return the
items. -/
def queryTokens (toks : List (List Char)) (st : Store) (albumQuery : Bool) : QueryResult :=
  match toks with
  | [] => ⟨[], [.errNoQuery], false⟩
  | t :: ts =>
    match compileTerms (t :: ts) with
    | .error e => ⟨[], [.errTerm e], false⟩
    | .ok preds =>
      let items : List LibItemM :=
        if albumQuery then (st.findAlbums preds).map .album
        else (st.findTracks preds).map .track
      ⟨items, if items.isEmpty then [.warnNoItems] else [], true⟩

/-- Model of `query` (query.py lines 79-115): tokenize, then process the
tokens; `none` models the uncaught tokenizer `ValueError`. -/
def query (queryStr : List Char) (st : Store) (albumQuery : Bool) : Option QueryResult :=
  (shlexSplit queryStr).map (fun toks => queryTokens toks st albumQuery)

example : natToChars 12 = ['1', '2'] := by decide

example :
    query "".toList ⟨[]⟩ false = some ⟨[], [.errNoQuery], false⟩ := by decide

example :
    query "bogus:1".toList ⟨[]⟩ false =
      some ⟨[], [.errTerm (.unknownField "bogus".toList)], false⟩ := by decide

/-! ## Helper lemmas -/

theorem not_nl_of_not_ws {c : Char} (h : isPyWs c = false) : (!(c.toNat == 10)) = true := by
  unfold isPyWs at h
  simp only [Bool.or_eq_false_iff, beq_eq_false_iff_ne, ne_eq] at h
  simp [h.1.1.1.2]

theorem colon_not_ws : isPyWs ':' = false := by decide

theorem tryAt_eq (f rest : List Char) :
    tryAt f rest =
      if sepOk rest then some ⟨f, (buildFrom rest).1, (buildFrom rest).2⟩ else none := by
  rcases rest with _ | ⟨a, _ | ⟨b, tail⟩⟩
  · rfl
  · by_cases ha : a = ':'
    · subst ha
      simp [tryAt, sepOk, valueFrom]
    · simp [tryAt, sepOk, ha]
  · by_cases ha : a = ':'
    · subst ha
      by_cases hb : isPyWs b
      · have hbc : b ≠ ':' := by
          intro hb2
          rw [hb2] at hb
          exact absurd hb (by decide)
        simp [tryAt, sepOk, hbc, valueFrom, hb]
      · simp only [Bool.not_eq_true] at hb
        by_cases hbc : b = ':'
        · subst hbc
          rcases tail with _ | ⟨c, tl⟩
          · simp [tryAt, sepOk, valueFrom, buildFrom, sepAt, colon_not_ws]
          · by_cases hc : isPyWs c
            · simp [tryAt, sepOk, valueFrom, buildFrom, sepAt, hc,
                List.takeWhile_cons, colon_not_ws]
            · simp only [Bool.not_eq_true] at hc
              simp [tryAt, sepOk, valueFrom, buildFrom, sepAt, hc,
                List.takeWhile_cons, not_nl_of_not_ws hc, colon_not_ws]
        · rcases tail with _ | ⟨c, tl⟩
          · simp [tryAt, sepOk, valueFrom, buildFrom, sepAt, hbc, hb,
              List.takeWhile_cons, not_nl_of_not_ws hb, colon_not_ws]
          · simp [tryAt, sepOk, valueFrom, buildFrom, sepAt, hbc, hb,
              List.takeWhile_cons, not_nl_of_not_ws hb, colon_not_ws]
    · simp [tryAt, sepOk, ha]

theorem termMatch_eq_splitFirst (r : List Char) :
    ∀ acc, termMatch acc r =
      (splitFirst r).map
        (fun fp => ⟨acc ++ fp.1, (buildFrom fp.2).1, (buildFrom fp.2).2⟩) := by
  induction r with
  | nil => intro acc; rfl
  | cons c rest ih =>
    intro acc
    by_cases hc : isPyWs c
    · simp [termMatch, splitFirst, hc]
    · simp only [Bool.not_eq_true] at hc
      by_cases hsep : sepOk rest
      · simp [termMatch, splitFirst, hc, hsep, tryAt_eq]
      · simp only [Bool.not_eq_true] at hsep
        rw [termMatch, if_neg (by simp [hc]), tryAt_eq, if_neg (by simp [hsep])]
        rw [ih (acc ++ [c])]
        simp [splitFirst, hc, hsep, Option.map_map, Function.comp_def]

theorem splitFirst_sound {r e p : List Char} (h : splitFirst r = some (e, p)) :
    r = e ++ p ∧ e ≠ [] ∧ (∀ c ∈ e, isPyWs c = false) ∧ sepOk p = true := by
  induction r generalizing e with
  | nil => simp [splitFirst] at h
  | cons c rest ih =>
    by_cases hc : isPyWs c
    · simp [splitFirst, hc] at h
    · simp only [Bool.not_eq_true] at hc
      by_cases hsep : sepOk rest
      · rw [splitFirst, if_neg (by simp [hc]), if_pos hsep] at h
        obtain ⟨he, hp⟩ : e = [c] ∧ p = rest := by
          have := Option.some_injective _ h
          exact ⟨congrArg Prod.fst this.symm, congrArg Prod.snd this.symm⟩
        subst he; subst hp
        exact ⟨rfl, by simp, by simp [hc], hsep⟩
      · simp only [Bool.not_eq_true] at hsep
        rw [splitFirst, if_neg (by simp [hc]), if_neg (by simp [hsep])] at h
        rcases he : splitFirst rest with _ | ⟨e0, p0⟩
        · simp [he] at h
        · rw [he] at h
          simp only [Option.map_some'] at h
          obtain ⟨he1, hp1⟩ : e = c :: e0 ∧ p = p0 := by
            have := Option.some_injective _ h
            exact ⟨congrArg Prod.fst this.symm, congrArg Prod.snd this.symm⟩
          subst he1; subst hp1
          obtain ⟨hr0, _, hall, hsep0⟩ := ih he
          refine ⟨by simp [hr0], by simp, ?_, hsep0⟩
          intro d hd
          rcases List.mem_cons.mp hd with h1 | h2
          · subst h1; exact hc
          · exact hall d h2

theorem splitFirst_minimal {r e p : List Char} (h : splitFirst r = some (e, p)) :
    ∀ e' p', r = e' ++ p' → e' ≠ [] → (∀ c ∈ e', isPyWs c = false) →
      sepOk p' = true → e.length ≤ e'.length := by
  induction r generalizing e p with
  | nil => simp [splitFirst] at h
  | cons c rest ih =>
    intro e' p' hr hne hall hsep'
    by_cases hc : isPyWs c
    · simp [splitFirst, hc] at h
    · simp only [Bool.not_eq_true] at hc
      by_cases hsep : sepOk rest
      · rw [splitFirst, if_neg (by simp [hc]), if_pos hsep] at h
        have he : e = [c] := by
          have := Option.some_injective _ h
          exact congrArg Prod.fst this.symm
        subst he
        rcases e' with _ | ⟨d, e0⟩
        · exact absurd rfl hne
        · simp
      · simp only [Bool.not_eq_true] at hsep
        rw [splitFirst, if_neg (by simp [hc]), if_neg (by simp [hsep])] at h
        rcases he : splitFirst rest with _ | ⟨e0, p0⟩
        · simp [he] at h
        · rw [he] at h
          simp only [Option.map_some'] at h
          obtain ⟨he1, hp1⟩ : e = c :: e0 ∧ p = p0 := by
            have := Option.some_injective _ h
            exact ⟨congrArg Prod.fst this.symm, congrArg Prod.snd this.symm⟩
          subst he1
          subst hp1
          rcases e' with _ | ⟨d, e1⟩
          · exact absurd rfl hne
          · rcases e1 with _ | ⟨d2, e2⟩
            · exfalso
              simp only [List.cons_append, List.nil_append, List.cons.injEq] at hr
              rw [← hr.2] at hsep'
              rw [hsep] at hsep'
              exact Bool.false_ne_true hsep'
            · simp only [List.cons_append, List.cons.injEq] at hr
              have hrec := ih he (d2 :: e2) p' hr.2 (by simp)
                (fun x hx => hall x (List.mem_cons_of_mem d hx)) hsep'
              simp only [List.length_cons] at hrec ⊢
              omega

theorem splitFirst_complete {r : List Char} (h : splitFirst r = none) :
    ∀ e p, r = e ++ p → e ≠ [] → (∀ c ∈ e, isPyWs c = false) → sepOk p = false := by
  induction r with
  | nil =>
    intro e p hr hne _
    rcases e with _ | ⟨d, e0⟩
    · exact absurd rfl hne
    · simp at hr
  | cons c rest ih =>
    intro e p hr hne hall
    by_cases hc : isPyWs c
    · rcases e with _ | ⟨d, e0⟩
      · exact absurd rfl hne
      · simp only [List.cons_append, List.cons.injEq] at hr
        have hd : isPyWs d = false := hall d (by simp)
        rw [hr.1, hd] at hc
        exact absurd hc (by decide)
    · simp only [Bool.not_eq_true] at hc
      by_cases hsep : sepOk rest
      · rw [splitFirst, if_neg (by simp [hc]), if_pos hsep] at h
        simp at h
      · simp only [Bool.not_eq_true] at hsep
        rw [splitFirst, if_neg (by simp [hc]), if_neg (by simp [hsep])] at h
        rcases e with _ | ⟨d, e0⟩
        · exact absurd rfl hne
        · simp only [List.cons_append, List.cons.injEq] at hr
          rcases e0 with _ | ⟨d2, e1⟩
          · simp only [List.nil_append] at hr
            rw [← hr.2]
            exact hsep
          · rcases hsf : splitFirst rest with _ | ⟨ep⟩
            · exact ih (by rw [hsf]) (d2 :: e1) p hr.2 (by simp)
                (fun x hx => hall x (List.mem_cons_of_mem d hx))
            · simp [hsf] at h

theorem parseTerm_eq_spec (term : List Char) (h : term ≠ ['*']) :
    parseTerm term = parseTermSpec term := by
  rw [parseTerm, if_neg h, parseTermSpec, if_neg h]
  rw [termMatch_eq_splitFirst term []]
  rcases hsf : splitFirst term with _ | ⟨e, p⟩
  · rfl
  · simp

theorem shlexGo_ws {l : List Char} (h : ∀ c ∈ l, isShlexWs c = true) (acc : List (List Char)) :
    shlexGo .normal l [] false acc = some acc := by
  induction l generalizing acc with
  | nil => rfl
  | cons c rest ih =>
    rw [shlexGo, if_pos (h c (by simp))]
    simp only [List.isEmpty_nil, Bool.not_false, Bool.and_self, if_true]
    exact ih (fun d hd => h d (List.mem_cons_of_mem c hd)) acc

theorem shlexSplit_ws {l : List Char} (h : ∀ c ∈ l, isShlexWs c = true) :
    shlexSplit l = some [] :=
  shlexGo_ws h []

theorem deriv_upChar (r : RE) (c : Char) : r.deriv true (upChar c) = r.deriv true c := by
  induction r with
  | emp => rfl
  | eps => rfl
  | char d => simp [RE.deriv, lowChar_upChar]
  | any => simp [RE.deriv, upChar_ne_newline]
  | spaceCls neg => simp [RE.deriv, isPyWs_upChar]
  | seq a b iha ihb => simp [RE.deriv, iha, ihb]
  | alt a b iha ihb => simp [RE.deriv, iha, ihb]
  | star a iha => simp [RE.deriv, iha]

theorem matchesPre_upChar (s : List Char) :
    ∀ r : RE, matchesPre true r (s.map upChar) = matchesPre true r s := by
  induction s with
  | nil => intro r; rfl
  | cons c rest ih =>
    intro r
    simp only [List.map_cons, matchesPre]
    rw [deriv_upChar, ih]

theorem reSearch_upChar (r : RE) (s : List Char) :
    reSearch true r (s.map upChar) = reSearch true r s := by
  induction s with
  | nil => rfl
  | cons c rest ih =>
    simp only [List.map_cons, reSearch]
    rw [ih, show (upChar c :: rest.map upChar) = (c :: rest).map upChar from rfl,
      matchesPre_upChar]

theorem map_lowChar_lowChar (l : List Char) :
    (l.map lowChar).map lowChar = l.map lowChar := by
  induction l with
  | nil => rfl
  | cons c rest ih => simp [lowChar_lowChar, ih]

theorem map_lowChar_upChar (l : List Char) :
    (l.map upChar).map lowChar = l.map lowChar := by
  induction l with
  | nil => rfl
  | cons c rest ih => simp [lowChar_upChar, ih]

theorem likeFuel_percent {fuel : Nat} {l : List Char} (h : l.length + 2 ≤ fuel) :
    likeFuel fuel ['%'] l = true := by
  induction fuel generalizing l with
  | zero => omega
  | succ f ih =>
    rcases l with _ | ⟨d, s⟩
    · rcases f with _ | g
      · omega
      · rfl
    · rw [likeFuel]
      have : likeFuel f ['%'] s = true := ih (by simp at h ⊢; omega)
      simp [this]

theorem likeRaw_percent (l : List Char) : likeRaw ['%'] l = true := by
  unfold likeRaw
  exact likeFuel_percent (by simp; omega)

theorem compileTerms_first_error {pre : List (List Char)} {bad : List Char}
    {rest : List (List Char)} {e : QueryError}
    (hok : ∀ t ∈ pre, ∃ p, compileOne t = .ok p) (hbad : compileOne bad = .error e) :
    compileTerms (pre ++ bad :: rest) = .error e := by
  induction pre with
  | nil => simp [compileTerms, hbad]
  | cons t pre0 ih =>
    obtain ⟨p, hp⟩ := hok t (by simp)
    rw [List.cons_append, compileTerms, hp,
      ih (fun u hu => hok u (List.mem_cons_of_mem t hu))]

theorem queryTokens_error {toks : List (List Char)} {st : Store} {aq : Bool}
    {e : QueryError} (hne : toks ≠ []) (h : compileTerms toks = .error e) :
    queryTokens toks st aq = ⟨[], [.errTerm e], false⟩ := by
  rcases toks with _ | ⟨t, ts⟩
  · exact absurd rfl hne
  · rw [queryTokens, h]

theorem queryTokens_ok {toks : List (List Char)} {st : Store} {aq : Bool}
    {preds : List Predicate} (hne : toks ≠ []) (h : compileTerms toks = .ok preds) :
    queryTokens toks st aq =
      ⟨if aq then (st.findAlbums preds).map .album else (st.findTracks preds).map .track,
        if (if aq then (st.findAlbums preds).map LibItemM.album
            else (st.findTracks preds).map LibItemM.track).isEmpty
          then [.warnNoItems] else [], true⟩ := by
  rcases toks with _ | ⟨t, ts⟩
  · exact absurd rfl hne
  · rw [queryTokens, h]

theorem query_error {qs : List Char} {st : Store} {aq : Bool}
    {toks : List (List Char)} {e : QueryError}
    (hsplit : shlexSplit qs = some toks) (hne : toks ≠ [])
    (herr : compileTerms toks = .error e) :
    query qs st aq = some ⟨[], [.errTerm e], false⟩ := by
  rw [query, hsplit, Option.map_some']
  rcases toks with _ | ⟨t, ts⟩
  · exact absurd rfl hne
  · rw [queryTokens, herr]

theorem query_ok {qs : List Char} {st : Store} {aq : Bool}
    {toks : List (List Char)} {preds : List Predicate}
    (hsplit : shlexSplit qs = some toks) (hne : toks ≠ [])
    (hok : compileTerms toks = .ok preds) :
    query qs st aq =
      some ⟨if aq then (st.findAlbums preds).map .album else (st.findTracks preds).map .track,
        if (if aq then (st.findAlbums preds).map LibItemM.album
            else (st.findTracks preds).map LibItemM.track).isEmpty
          then [.warnNoItems] else [], true⟩ := by
  rw [query, hsplit, Option.map_some']
  rcases toks with _ | ⟨t, ts⟩
  · exact absurd rfl hne
  · rw [queryTokens, hok]

/-! ## Sample data for concrete evaluations -/

def trackAdventure : TrackRec :=
  ⟨"Wu-Tang Clan".toList, "Wu-Tang Clan".toList, "Enter".toList,
    "Adventure".toList, 1, 1993, "p1".toList⟩

def trackBravo : TrackRec :=
  ⟨"Wu-Tang Clan".toList, "Wu-Tang Clan".toList, "Enter".toList,
    "Bravo".toList, 2, 1993, "p2".toList⟩

def stWu : Store := ⟨[⟨[trackAdventure, trackBravo]⟩]⟩

def stC10 : Store := ⟨[⟨[trackBravo]⟩, ⟨[]⟩]⟩

/-! ## Claim C1 -/

/-- Claim C1, counterexample: the claim says the value returned for a
well-formed query with an empty match set is distinguishable from the
value returned for a parse or validation failure.  In the code both are
the same empty list: `artist:zzz` is well-formed and matches nothing (the
store is consulted and a warning is logged), while the empty query and a
malformed token fail without consulting the store (an error is logged),
yet all three calls return `[]`. -/
theorem C1_counterexample :
    query "artist:zzz".toList stWu false = some ⟨[], [.warnNoItems], true⟩ ∧
    query "".toList stWu false = some ⟨[], [.errNoQuery], false⟩ ∧
    query "badtoken".toList stWu false =
      some ⟨[], [.errTerm (.malformedTerm "badtoken".toList)], false⟩ ∧
    (query "artist:zzz".toList stWu false).map QueryResult.items =
      (query "".toList stWu false).map QueryResult.items := by
  refine ⟨by decide, by decide, by decide, by decide⟩

/-- Claim C1, amended: the engine returns the same value, the empty list,
for a well-formed query with no matches as for any parse or validation
failure; the outcomes differ only in the side log, where failures produce
an error message without evaluating the store while the no-match outcome
produces a warning after evaluating it. -/
theorem C1_amended :
    ∀ (qs : List Char) (st : Store) (aq : Bool) (r : QueryResult),
      query qs st aq = some r →
      (r.storeEvaluated = false →
        r.items = [] ∧ (r.logs = [.errNoQuery] ∨ ∃ e, r.logs = [.errTerm e])) ∧
      (r.storeEvaluated = true → r.items = [] → r.logs = [.warnNoItems]) := by
  intro qs st aq r h
  rw [query] at h
  rcases hsp : shlexSplit qs with _ | ⟨toks⟩
  · rw [hsp] at h
    exact absurd h (by simp)
  · rw [hsp, Option.map_some'] at h
    have hr := Option.some_injective _ h
    subst hr
    rcases toks with _ | ⟨t, ts⟩
    · exact ⟨fun _ => ⟨rfl, Or.inl rfl⟩, fun ht => by simp [queryTokens] at ht⟩
    · rcases hct : compileTerms (t :: ts) with e | preds
      · rw [queryTokens_error (by simp) hct]
        exact ⟨fun _ => ⟨rfl, Or.inr ⟨e, rfl⟩⟩, fun ht => by simp at ht⟩
      · rw [queryTokens_ok (by simp) hct]
        refine ⟨fun hf => by simp at hf, fun _ hempty => ?_⟩
        simp only at hempty ⊢
        rw [hempty]
        simp

/-- Application of the amended C1 theorem at the empty query. -/
theorem C1_amended_witness :
    ([] : List LibItemM) = [] ∧
      (([LogMsg.errNoQuery] : List LogMsg) = [.errNoQuery] ∨
        ∃ e, ([LogMsg.errNoQuery] : List LogMsg) = [.errTerm e]) :=
  (C1_amended "".toList stWu false ⟨[], [.errNoQuery], false⟩ (by decide)).1 rfl

/-! ## Claim C3 -/

/-- Claim C3: a query string whose characters are all tokenizer whitespace
(including the empty string) yields zero tokens, and the engine logs the
no-query error, returns the empty list and never executes the statement;
and whenever tokenization succeeds and some token fails to parse, resolve
or compile while all tokens before it compile, the engine logs exactly the
error of that first failing token, returns the empty list and never
executes the statement, independently of the tokens after it. -/
theorem C3_fail_fast :
    (∀ (qs : List Char) (st : Store) (aq : Bool),
        (∀ c ∈ qs, isShlexWs c = true) →
        query qs st aq = some ⟨[], [.errNoQuery], false⟩) ∧
    (∀ (qs : List Char) (st : Store) (aq : Bool) (pre : List (List Char))
        (bad : List Char) (rest : List (List Char)) (e : QueryError),
        shlexSplit qs = some (pre ++ bad :: rest) →
        (∀ t ∈ pre, ∃ p, compileOne t = .ok p) →
        compileOne bad = .error e →
        query qs st aq = some ⟨[], [.errTerm e], false⟩) := by
  constructor
  · intro qs st aq h
    rw [query, shlexSplit_ws h, Option.map_some']
    rfl
  · intro qs st aq pre bad rest e hsp hok hbad
    exact query_error hsp (by simp) (compileTerms_first_error hok hbad)

/-- Application of the C3 theorem to a whitespace-only query and to a
query whose second token is malformed (the error surfaced is that of the
second token, not of the later invalid-regex token). -/
theorem C3_fail_fast_witness :
    query "   ".toList stWu false = some ⟨[], [.errNoQuery], false⟩ ∧
    query "title:a badtoken title::(".toList stWu false =
      some ⟨[], [.errTerm (.malformedTerm "badtoken".toList)], false⟩ := by
  constructor
  · exact C3_fail_fast.1 _ stWu false (by decide)
  · refine C3_fail_fast.2 _ stWu false ["title:a".toList] "badtoken".toList
      ["title::(".toList] _ (by decide) ?_ (by decide)
    intro t ht
    have := List.mem_singleton.mp ht
    subst this
    exact ⟨Predicate.like "title".toList ['a'], by decide⟩

/-! ## Claim C5 -/

/-- Claim C5: for a term with the regex separator whose field resolves, the
value is compiled eagerly; if it does not compile the term fails with the
invalid-regex error, and only a compiling value yields a regex predicate.
Whenever an invalid-regex error is surfaced by a query, the returned list
is empty and the statement was never executed against the store. -/
theorem C5_invalid_regex :
    (∀ (pt : ParsedTerm) (attr : List Char),
        trackGetAttr (pt.field.map lowChar) = some attr →
        pt.separator = [':', ':'] →
        ((reCompile pt.value = none ∧
            createExpression pt = .error (.invalidRegex pt.value)) ∨
          (∃ r, reCompile pt.value = some r ∧
            createExpression pt = .ok (.regex attr pt.value)))) ∧
    (∀ (qs : List Char) (st : Store) (aq : Bool) (res : QueryResult) (v : List Char),
        query qs st aq = some res →
        LogMsg.errTerm (.invalidRegex v) ∈ res.logs →
        res.items = [] ∧ res.storeEvaluated = false) := by
  constructor
  · intro pt attr hattr hsep
    rw [createExpression]
    simp only [hattr, hsep]
    rcases hrc : reCompile pt.value with _ | ⟨r⟩
    · left
      exact ⟨rfl, by simp⟩
    · right
      exact ⟨r, rfl, by simp⟩
  · intro qs st aq res v h hmem
    rw [query] at h
    rcases hsp : shlexSplit qs with _ | ⟨toks⟩
    · rw [hsp] at h
      exact absurd h (by simp)
    · rw [hsp, Option.map_some'] at h
      have hr := Option.some_injective _ h
      subst hr
      rcases toks with _ | ⟨t, ts⟩
      · exact ⟨rfl, rfl⟩
      · rcases hct : compileTerms (t :: ts) with e | preds
        · rw [queryTokens_error (by simp) hct]
          exact ⟨rfl, rfl⟩
        · rw [queryTokens_ok (by simp) hct] at hmem ⊢
          exfalso
          rcases hemp : (if aq then (st.findAlbums preds).map LibItemM.album
              else (st.findTracks preds).map LibItemM.track).isEmpty with _ | _
          · simp only [hemp] at hmem
            simp at hmem
          · simp only [hemp] at hmem
            simp at hmem

/-- Application of the C5 theorem at the term `title::(` and at the same
query, whose value does not compile as a regular expression. -/
theorem C5_invalid_regex_witness :
    ((reCompile "(".toList = none ∧
        createExpression ⟨"title".toList, [':', ':'], "(".toList⟩ =
          .error (.invalidRegex "(".toList)) ∨
      (∃ r, reCompile "(".toList = some r ∧
        createExpression ⟨"title".toList, [':', ':'], "(".toList⟩ =
          .ok (.regex "title".toList "(".toList))) ∧
    (([] : List LibItemM) = [] ∧ false = false) := by
  constructor
  · exact C5_invalid_regex.1 ⟨"title".toList, [':', ':'], "(".toList⟩ "title".toList
      (by decide) rfl
  · exact C5_invalid_regex.2 "title::(".toList stWu false
      ⟨[], [.errTerm (.invalidRegex "(".toList)], false⟩ "(".toList (by decide)
      (List.mem_singleton.mpr rfl)

/-! ## Claim C9 -/

/-- Claim C9: every term dictionary produced by the term parser has the
single-colon or the double-colon separator, so the invalid-query-type
branch of the expression builder is unreachable for parsed terms. -/
theorem C9_separator_invariant :
    ∀ (tok : List Char) (pt : ParsedTerm),
      parseTerm tok = some pt →
      (pt.separator = [':'] ∨ pt.separator = [':', ':']) ∧
      ∀ s, createExpression pt ≠ .error (.invalidSeparator s) := by
  intro tok pt h
  have hsep : pt.separator = [':'] ∨ pt.separator = [':', ':'] := by
    rw [parseTerm] at h
    by_cases hstar : tok = ['*']
    · rw [if_pos hstar] at h
      have := Option.some_injective _ h
      subst this
      exact Or.inl rfl
    · rw [if_neg hstar, termMatch_eq_splitFirst tok []] at h
      rcases hsf : splitFirst tok with _ | ⟨e, p⟩
      · rw [hsf] at h
        exact absurd h (by simp)
      · rw [hsf, Option.map_some'] at h
        have hpt := Option.some_injective _ h
        subst hpt
        simp only
        rw [buildFrom]
        simp only
        rcases p with _ | ⟨a, _ | ⟨b, _ | ⟨c, tl⟩⟩⟩
        · exact Or.inl rfl
        · exact Or.inl rfl
        · exact Or.inl rfl
        · rw [sepAt]
          by_cases hcond : a = ':' ∧ b = ':' ∧ isPyWs c = false
          · rw [if_pos hcond]
            exact Or.inr rfl
          · rw [if_neg hcond]
            exact Or.inl rfl
  refine ⟨hsep, ?_⟩
  intro s hcontra
  rw [createExpression] at hcontra
  rcases hattr : trackGetAttr (pt.field.map lowChar) with _ | ⟨attr⟩
  · rw [hattr] at hcontra
    simp at hcontra
  · rw [hattr] at hcontra
    simp only at hcontra
    rcases hsep with h1 | h2
    · rw [if_pos h1] at hcontra
      exact absurd hcontra (by simp)
    · rw [if_neg (by rw [h2]; decide), if_pos h2] at hcontra
      rcases hrc : reCompile pt.value with _ | ⟨r⟩
      · rw [hrc] at hcontra
        simp at hcontra
      · rw [hrc] at hcontra
        simp at hcontra

/-- Application of the C9 theorem at the term `artist:name`. -/
theorem C9_separator_invariant_witness :
    (([':'] : List Char) = [':'] ∨ ([':'] : List Char) = [':', ':']) ∧
      ∀ s, createExpression ⟨"artist".toList, [':'], "name".toList⟩ ≠
        .error (.invalidSeparator s) :=
  C9_separator_invariant "artist:name".toList
    ⟨"artist".toList, [':'], "name".toList⟩ (by decide)

/-! ## Claim C7 -/

theorem wildcardMatchesTrack (t : TrackRec) :
    predMatches (.like "track_num".toList ['%']) t = true := by
  show ilikeMatch ['%'] (t.getField "track_num".toList) = true
  unfold ilikeMatch
  rw [show (['%'].map lowChar) = ['%'] from rfl]
  exact likeRaw_percent _

theorem wildcardAny (l : List TrackRec) :
    (l.any (fun t =>
      [Predicate.like "track_num".toList ['%']].all (fun p => predMatches p t))) =
      !l.isEmpty := by
  rcases l with _ | ⟨t, ts⟩
  · rfl
  · simp only [List.any_cons, List.isEmpty_cons, Bool.not_false,
      List.all_cons, List.all_nil, Bool.and_true, wildcardMatchesTrack t,
      Bool.true_or]

/-- Claim C7, counterexample: the claim says the compiled wildcard
predicate matches every record of the queried kind.  For the album kind it
does not: against a store holding one album with a track and one album
without tracks, the album query for `*` returns only the former, omitting
a record of the queried kind (the wildcard rides on `track_num`, a track
field, and the album statement inner-joins the track table). -/
theorem C7_counterexample :
    query ['*'] stC10 true = some ⟨[.album ⟨[trackBravo]⟩], [], true⟩ ∧
    (⟨[]⟩ : AlbumRec) ∈ stC10.albums ∧
    LibItemM.album ⟨[]⟩ ∉ [LibItemM.album ⟨[trackBravo]⟩] := by
  refine ⟨by decide, by decide, by decide⟩

/-- Claim C7, amended: the token `*` parses to the wildcard term, a Like
term with pattern `%` over `track_num`, a field guaranteed to exist on
every track (not on every album); its compiled predicate holds on every
track row, a track query for `*` returns every track of the store, and an
album query for `*` returns exactly the albums having at least one track,
so a zero-track album of the queried kind is not matched. -/
theorem C7_wildcard :
    parseTerm ['*'] = some ⟨"track_num".toList, [':'], ['%']⟩ ∧
    compileOne ['*'] = .ok (.like "track_num".toList ['%']) ∧
    (∀ t : TrackRec, predMatches (.like "track_num".toList ['%']) t = true) ∧
    (∀ st : Store, (query ['*'] st false).map QueryResult.items =
      some (st.allTracks.map .track)) ∧
    (∀ st : Store, (query ['*'] st true).map QueryResult.items =
      some ((st.albums.filter (fun a => !a.tracks.isEmpty)).map .album)) := by
  refine ⟨by decide, by decide, fun t => wildcardMatchesTrack t, ?_, ?_⟩
  · intro st
    have hq := @query_ok ['*'] st false [['*']] [.like "track_num".toList ['%']]
      (by decide) (by simp) (by decide)
    rw [hq]
    simp only [if_neg Bool.false_ne_true, Option.map_some']
    have hfind : st.findTracks [.like "track_num".toList ['%']] = st.allTracks := by
      unfold Store.findTracks
      apply List.filter_eq_self.mpr
      intro t _
      simp only [List.all_cons, List.all_nil, Bool.and_true]
      exact wildcardMatchesTrack t
    rw [hfind]
  · intro st
    have hq := @query_ok ['*'] st true [['*']] [.like "track_num".toList ['%']]
      (by decide) (by simp) (by decide)
    rw [hq]
    simp only [if_pos rfl, Option.map_some']
    have hfind : st.findAlbums [.like "track_num".toList ['%']] =
        st.albums.filter (fun a => !a.tracks.isEmpty) := by
      unfold Store.findAlbums
      simp only [wildcardAny]
    rw [hfind]
    simp

/-! ## Claim C10 -/

/-- Claim C10: every item returned by an album query is an album with at
least one track, because the album statement inner-joins the track table;
an album with zero tracks is never returned by any query. -/
theorem C10_album_join :
    ∀ (qs : List Char) (st : Store) (res : QueryResult) (it : LibItemM),
      query qs st true = some res → it ∈ res.items →
      ∃ a : AlbumRec, it = .album a ∧ a.tracks ≠ [] := by
  intro qs st res it h hmem
  rw [query] at h
  rcases hsp : shlexSplit qs with _ | ⟨toks⟩
  · rw [hsp] at h
    exact absurd h (by simp)
  · rw [hsp, Option.map_some'] at h
    have hr := Option.some_injective _ h
    subst hr
    rcases toks with _ | ⟨t, ts⟩
    · simp [queryTokens] at hmem
    · rcases hct : compileTerms (t :: ts) with e | preds
      · rw [queryTokens_error (by simp) hct] at hmem
        simp at hmem
      · rw [queryTokens_ok (by simp) hct] at hmem
        simp only [if_pos rfl] at hmem
        rcases List.mem_map.mp hmem with ⟨a, ha, rfl⟩
        refine ⟨a, rfl, ?_⟩
        have hfil := List.mem_filter.mp ha
        intro hnil
        rw [hnil] at hfil
        simp at hfil

/-- Application of the C10 theorem to a store holding one album with a
track and one album without tracks; the match-all query returns only the
former. -/
theorem C10_album_join_witness :
    ∃ a : AlbumRec, LibItemM.album ⟨[trackBravo]⟩ = .album a ∧ a.tracks ≠ [] :=
  C10_album_join ['*'] stC10 ⟨[.album ⟨[trackBravo]⟩], [], true⟩
    (.album ⟨[trackBravo]⟩) (by decide) (by simp)

/-! ## Claim C2 -/

/-- Claim C2, counterexample: the claim says field resolution is scoped to
the requested record kind, so a Track-only field queried against kind
Album must fail with the unknown-field error.  In the code an album query
for `track_num:1` (a field the spec itself denies to albums) resolves,
filters and returns an album instead of failing. -/
theorem C2_counterexample :
    query "track_num:1".toList stWu true =
      some ⟨[.album ⟨[trackAdventure, trackBravo]⟩], [], true⟩ ∧
    "track_num".toList ∉ albumFields := by
  refine ⟨by decide, by decide⟩

/-- Claim C2, amended: field resolution is never scoped to the requested
record kind; both track and album queries resolve every field through the
Track registry, failing with the unknown-field error exactly when the
lower-cased name is not a Track field, and the compilation outcome of a
query is independent of the requested kind. -/
theorem C2_amended :
    (∀ pt : ParsedTerm,
        createExpression pt = .error (.unknownField (pt.field.map lowChar)) ↔
          trackGetAttr (pt.field.map lowChar) = none) ∧
    (∀ (qs : List Char) (st : Store),
        (query qs st true).map QueryResult.storeEvaluated =
          (query qs st false).map QueryResult.storeEvaluated ∧
        ∀ r₁ r₂, query qs st true = some r₁ → query qs st false = some r₂ →
          r₁.storeEvaluated = false → r₁.logs = r₂.logs) := by
  constructor
  · intro pt
    constructor
    · intro h
      rcases hattr : trackGetAttr (pt.field.map lowChar) with _ | ⟨attr⟩
      · rfl
      · exfalso
        rw [createExpression] at h
        simp only [hattr] at h
        by_cases h1 : pt.separator = [':']
        · rw [if_pos h1] at h
          exact absurd h (by simp)
        · rw [if_neg h1] at h
          by_cases h2 : pt.separator = [':', ':']
          · rw [if_pos h2] at h
            rcases hrc : reCompile pt.value with _ | ⟨r⟩
            · rw [hrc] at h
              simp at h
            · rw [hrc] at h
              simp at h
          · rw [if_neg h2] at h
            simp at h
    · intro h
      rw [createExpression]
      simp only [h]
  · intro qs st
    rw [query, query]
    rcases hsp : shlexSplit qs with _ | ⟨toks⟩
    · refine ⟨rfl, ?_⟩
      intro r₁ r₂ h1 h2 hf
      exact absurd h1 (by simp)
    · simp only [Option.map_some']
      constructor
      · rcases toks with _ | ⟨t, ts⟩
        · rfl
        · rcases hct : compileTerms (t :: ts) with e | preds
          · rw [queryTokens_error (by simp) hct, queryTokens_error (by simp) hct]
          · rw [queryTokens_ok (by simp) hct, queryTokens_ok (by simp) hct]
      · intro r₁ r₂ h1 h2 hf
        have e1 := Option.some_injective _ h1
        have e2 := Option.some_injective _ h2
        subst e1
        subst e2
        rcases toks with _ | ⟨t, ts⟩
        · rfl
        · rcases hct : compileTerms (t :: ts) with e | preds
          · rw [queryTokens_error (by simp) hct, queryTokens_error (by simp) hct]
          · rw [queryTokens_ok (by simp) hct] at hf
            simp at hf

/-- Application of the amended C2 theorem: the unknown-field outcome of a
concrete term, and the kind-independence of the compilation outcome at a
concrete query. -/
theorem C2_amended_witness :
    (createExpression ⟨"bogus".toList, [':'], ['1']⟩ =
        .error (.unknownField "bogus".toList) ↔
      trackGetAttr "bogus".toList = none) ∧
    (query "bogus:1".toList stWu true).map QueryResult.storeEvaluated =
      (query "bogus:1".toList stWu false).map QueryResult.storeEvaluated :=
  ⟨C2_amended.1 ⟨"bogus".toList, [':'], ['1']⟩,
    (C2_amended.2 "bogus:1".toList stWu).1⟩

/-! ## Claim C6 -/

/-- Claim C6, counterexample: the claim says the boolean result of a Regex
predicate is invariant when the pattern is lower-cased and the candidate
upper-cased.  Lower-casing the pattern `\S` yields `\s`, which inverts the
character class: `\S` finds a match in `x` but `\s` finds none in `X`. -/
theorem C6_counterexample :
    regexpFn "\\S".toList "x".toList = some true ∧
    regexpFn ("\\S".toList.map lowChar) ("x".toList.map upChar) = some false := by
  refine ⟨by decide, by decide⟩

/-- Claim C6, amended: Pattern predicates are invariant under ASCII case
changes of both the pattern and the candidate; Regex predicates are
case-insensitive in the candidate only, since lower-casing a regex pattern
can change its meaning (as with `\S`). -/
theorem C6_amended :
    (∀ p s : List Char, ilikeMatch p s = ilikeMatch (p.map lowChar) (s.map upChar)) ∧
    (∀ (r : RE) (s : List Char), reSearch true r s = reSearch true r (s.map upChar)) := by
  constructor
  · intro p s
    unfold ilikeMatch
    rw [map_lowChar_lowChar, map_lowChar_upChar]
  · intro r s
    rw [reSearch_upChar]

/-! ## Claim C4 -/

/-- Claim C4, counterexample: the claim says the separator is `::` (Regex)
whenever two colons follow the field, and that the value is the entire
remainder of the token.  For the token `a::` the code backtracks to the
single-colon separator with value `:` instead of failing on an empty
regex value, and for the token `a:b` followed by a newline and `c` the
value stops before the newline instead of covering the whole remainder. -/
theorem C4_counterexample :
    parseTerm "a::".toList = some ⟨['a'], [':'], [':']⟩ ∧
    parseTerm "a:b\nc".toList = some ⟨['a'], [':'], ['b']⟩ := by
  refine ⟨by decide, by decide⟩

/-- Claim C4, amended: for every token other than `*`, the parser returns
the lower-cased field, separator and value where the field is the shortest
non-empty run of non-whitespace characters followed by a colon and a
non-whitespace character; the separator is `::` exactly when two colons
follow the field with a non-whitespace character behind them and `:`
otherwise; and the value is the remainder of the token after the
separator, truncated at the first newline (hence non-empty and not
beginning with whitespace).  A token admitting no such split fails with
the malformed-term error. -/
theorem C4_amended :
    ∀ term : List Char, term ≠ ['*'] →
      parseTerm term = parseTermSpec term ∧
      (∀ e p, splitFirst term = some (e, p) →
        term = e ++ p ∧ e ≠ [] ∧ (∀ c ∈ e, isPyWs c = false) ∧ sepOk p = true ∧
        ∀ e' p', term = e' ++ p' → e' ≠ [] → (∀ c ∈ e', isPyWs c = false) →
          sepOk p' = true → e.length ≤ e'.length) ∧
      (splitFirst term = none →
        ∀ e p, term = e ++ p → e ≠ [] → (∀ c ∈ e, isPyWs c = false) →
          sepOk p = false) := by
  intro term h
  refine ⟨parseTerm_eq_spec term h, ?_, ?_⟩
  · intro e p hsf
    obtain ⟨h1, h2, h3, h4⟩ := splitFirst_sound hsf
    exact ⟨h1, h2, h3, h4, splitFirst_minimal hsf⟩
  · intro hnone e p
    exact splitFirst_complete hnone e p

/-- Application of the amended C4 theorem at the token `artist:name`. -/
theorem C4_amended_witness :
    parseTerm "artist:name".toList = parseTermSpec "artist:name".toList :=
  (C4_amended "artist:name".toList (by decide)).1

/-! ## Claim C8 -/

/-- Claim C8, counterexample: the claim says the query
`artist:wu-tang title:a%` against the two Wu-Tang records returns exactly
the first record.  A LIKE pattern without wildcards is an exact
case-insensitive match, so `artist:wu-tang` matches neither record with
artist `Wu-Tang Clan` and the query returns the empty list with a
no-items warning. -/
theorem C8_counterexample :
    query "artist:wu-tang title:a%".toList stWu false =
      some ⟨[], [.warnNoItems], true⟩ := by
  decide

/-- Claim C8, amended: the engine conjoins all compiled predicates and a
track query returns exactly the tracks satisfying every predicate; the
conjunction example needs the full artist value, as in the help text:
`"artist:wu-tang clan" title:a%` returns exactly the first record, while
the unquoted `artist:wu-tang` form matches nothing because a LIKE pattern
without wildcards is an exact case-insensitive match. -/
theorem C8_conjunction :
    (∀ (qs : List Char) (st : Store) (toks : List (List Char))
        (preds : List Predicate),
        shlexSplit qs = some toks → toks ≠ [] → compileTerms toks = .ok preds →
        (query qs st false).map QueryResult.items =
          some ((st.allTracks.filter
            (fun t => preds.all (fun p => predMatches p t))).map .track)) ∧
    query "\"artist:wu-tang clan\" title:a%".toList stWu false =
      some ⟨[.track trackAdventure], [], true⟩ := by
  constructor
  · intro qs st toks preds hsp hne hok
    rw [query_ok hsp hne hok, Option.map_some']
    rfl
  · decide

/-- Application of the C8 conjunction theorem at the amended example
query. -/
theorem C8_conjunction_witness :
    (query "\"artist:wu-tang clan\" title:a%".toList stWu false).map
        QueryResult.items =
      some ((stWu.allTracks.filter
        (fun t =>
          [Predicate.like "artist".toList "wu-tang clan".toList,
            Predicate.like "title".toList "a%".toList].all
            (fun p => predMatches p t))).map .track) :=
  C8_conjunction.1 "\"artist:wu-tang clan\" title:a%".toList stWu
    ["artist:wu-tang clan".toList, "title:a%".toList]
    [Predicate.like "artist".toList "wu-tang clan".toList,
      Predicate.like "title".toList "a%".toList]
    (by decide) (by simp) (by decide)
